import Mathlib

/-!
Verification of the Multi media-download service (src/main.py) against its
natural-language specification.  The Python source is shallowly embedded:
pure helpers become Lean functions, the stateful download orchestrator is
modelled by explicit state passing (the per-job progress entry and the trace
of writes), and the external download engine is an oracle parameter giving
each attempt's hook events and outcome.  Python numbers are modelled as
integers (`Int`); real-number arithmetic (`/`, float formatting) is modelled
exactly on the corresponding rationals.  Python truthiness (`or` chains on
possibly-`None`, possibly-zero values) is modelled explicitly.
-/

namespace Multi

/-! ### Python truthiness helpers -/

/-- Python `a or b` for optional integers: `None` and `0` are falsy. -/
def pyOrI : Option Int → Option Int → Option Int
  | some v, b => if v = 0 then b else some v
  | none, b => b

/-- Python `a or b` for optional strings: `None` and `""` are falsy. -/
def pyOrS : Option String → Option String → Option String
  | some v, b => if v = "" then b else some v
  | none, b => b

/-- Truthiness of an optional string (`if s:`). -/
def truthyS : Option String → Bool
  | some s => s ≠ ""
  | none => false

/-- Python's f-string rendering of a possibly-`None` string. -/
def pyShow : Option String → String
  | some s => s
  | none => "None"

/-- The whitespace characters `str.strip()` removes (ASCII model). -/
def pyIsSpace (c : Char) : Bool := c = ' ' || c = '\t' || c = '\n' || c = '\r'

/-- Python `str.strip()`: drop whitespace from both ends. -/
def pyStrip (s : String) : String :=
  String.mk (((s.data.dropWhile pyIsSpace).reverse.dropWhile pyIsSpace).reverse)

/-- Lower-case one character (`str.lower()`, ASCII model). -/
def asciiLower (c : Char) : Char :=
  if 'A' ≤ c ∧ c ≤ 'Z' then Char.ofNat (c.toNat + 32) else c

/-- Python `str.lower()`. -/
def pyLower (s : String) : String := String.mk (s.data.map asciiLower)

/-! ### Data model: raw and display formats (src/main.py `process_formats`) -/

/-- One raw format descriptor from the external extraction engine.  All
fields are optional, as in the source every access goes through `.get`. -/
structure RawFormat where
  format_id : Option String := none
  ext : Option String := none
  height : Option Int := none
  tbr : Option Int := none
  abr : Option Int := none
  filesize : Option Int := none
  filesize_approx : Option Int := none
  format_note : Option String := none
  format : Option String := none
  url : Option String := none
deriving Repr, DecidableEq

/-- One normalized display format (the dict built inside `process_formats`;
`label` is filled in by the final rendering pass, empty before that). -/
structure DisplayFormat where
  format_id : Option String := none
  height : Option Int := none
  ext : String := ""
  tbr : Int := 0
  filesize : Int := 0
  format_note : String := ""
  url : Option String := none
  label : String := ""
deriving Repr, DecidableEq

/-- `allowed_exts = {'mp4', 'm4a', 'webm', 'mkv', 'mp3'}` (src/main.py:160). -/
def allowed_exts : List String := ["mp4", "m4a", "webm", "mkv", "mp3"]

/-- The candidate-building loop body (src/main.py:162-176): lowercase the
extension, drop formats outside the allow-list, and apply the falsy-`or`
defaulting chains for bitrate, size and note. -/
def toCandidate (f : RawFormat) : Option DisplayFormat :=
  let ext := pyLower (f.ext.getD "")
  if ext ∈ allowed_exts then
    some { format_id := f.format_id
           height := f.height
           ext := ext
           tbr := (pyOrI f.tbr f.abr).getD 0
           filesize := (pyOrI f.filesize f.filesize_approx).getD 0
           format_note := (pyOrS f.format_note f.format).getD ""
           url := f.url }
  else
    none

/-- Dedup key `(f['height'] or 0, f['ext'])` (src/main.py:181). -/
def dedupKey (f : DisplayFormat) : Int × String := (f.height.getD 0, f.ext)

/-- The in-group replacement rule (src/main.py:186-190): prefer the new
entry when its filesize is strictly larger, else when its bitrate is
strictly larger (note: the bitrate branch fires even when the new entry's
filesize is strictly smaller). -/
def dedupPick (prev f : DisplayFormat) : DisplayFormat :=
  if f.filesize > prev.filesize then f
  else if f.tbr > prev.tbr then f
  else prev

/-- One step of the dedup dict build (src/main.py:179-190).  A Python dict
keeps keys in first-insertion order and updates values in place, so the
accumulator is an association list updated in place / appended at the end. -/
def dedupInsert (acc : List ((Int × String) × DisplayFormat)) (f : DisplayFormat) :
    List ((Int × String) × DisplayFormat) :=
  match acc with
  | [] => [(dedupKey f, f)]
  | (k, g) :: rest =>
    if k = dedupKey f then (k, dedupPick g f) :: rest
    else (k, g) :: dedupInsert rest f

/-- The dedup dict after processing all candidates (src/main.py:179-190). -/
def dedupFold (cands : List DisplayFormat) : List ((Int × String) × DisplayFormat) :=
  cands.foldl dedupInsert []

/-- `sort_key` (src/main.py:195-198): `(is_audio, -h, -tbr, -filesize)`. -/
def sortKey (f : DisplayFormat) : Int × Int × Int × Int :=
  ((if f.height = none then 1 else 0), -(f.height.getD 0), -f.tbr, -f.filesize)

/-- Lexicographic ≤ on the 4-component sort key, i.e. Python's tuple
comparison used by `list.sort(key=...)`. -/
def lex4LE (a b : Int × Int × Int × Int) : Bool :=
  decide (a.1 < b.1 ∨ a.1 = b.1 ∧ (a.2.1 < b.2.1 ∨ a.2.1 = b.2.1 ∧
    (a.2.2.1 < b.2.2.1 ∨ a.2.2.1 = b.2.2.1 ∧ a.2.2.2 ≤ b.2.2.2)))

/-- The sort comparison on display formats. -/
def fmtLE (a b : DisplayFormat) : Bool := lex4LE (sortKey a) (sortKey b)

/-- The sort comparison as a decidable relation. -/
def fmtRel (a b : DisplayFormat) : Prop := fmtLE a b = true

instance : DecidableRel fmtRel := fun a b => instDecidableEqBool _ _

instance : IsTotal DisplayFormat fmtRel where
  total a b := by
    unfold fmtRel fmtLE lex4LE
    rcases le_or_lt (sortKey a).1 (sortKey b).1 with h | h <;> simp <;> omega

instance : IsTrans DisplayFormat fmtRel where
  trans a b c hab hbc := by
    unfold fmtRel fmtLE lex4LE at *
    simp only [decide_eq_true_eq] at *
    omega

/-- Round `num/den` (for `den > 0`) to the nearest integer, halves to even:
how CPython rounds when formatting the exact rational value. -/
def roundHalfEven (num den : Int) : Int :=
  let q := num.fdiv den
  let r := num.fmod den
  if 2 * r < den then q
  else if 2 * r > den then q + 1
  else if q % 2 = 0 then q else q + 1

/-- `f"{fs/1024/1024:.2f} MB"` (src/main.py:208), on the exact rational. -/
def mbText (fs : Int) : String :=
  let h := roundHalfEven (fs * 100) (1024 * 1024)
  let whole := h.fdiv 100
  let frac := h.fmod 100
  toString whole ++ "." ++ (if frac < 10 then "0" else "") ++ toString frac ++ " MB"

/-- The note part of the label (src/main.py:204-207): explicit format note
if non-empty, else the resolution for truthy heights, else `"audio"`. -/
def noteText (f : DisplayFormat) : String :=
  match f.height with
  | some h =>
    if h ≠ 0 then (if f.format_note = "" then toString h ++ "p" else f.format_note)
    else (if f.format_note = "" then "audio" else f.format_note)
  | none => if f.format_note = "" then "audio" else f.format_note

/-- The size part of the label (src/main.py:208). -/
def sizeText (f : DisplayFormat) : String :=
  if f.filesize ≠ 0 then mbText f.filesize else "Size unknown"

/-- The bitrate part of the label (src/main.py:209). -/
def brText (f : DisplayFormat) : String :=
  if f.tbr ≠ 0 then "~" ++ toString f.tbr ++ " kbps" else ""

/-- `' • '.join([p for p in parts if p])` (src/main.py:214). -/
def bulletJoin (parts : List String) : String :=
  String.intercalate " • " (parts.filter (fun p => p ≠ ""))

/-- The label-rendering pass (src/main.py:203-214). -/
def addLabel (f : DisplayFormat) : DisplayFormat :=
  { f with label := bulletJoin [noteText f, f.ext, brText f, sizeText f] }

/-- `process_formats` (src/main.py:152-216).  The early return on an empty
input coincides with the general path, which also yields `[]`.  Python's
`list.sort` is a stable ascending sort by the key tuple; a stable sort with
a total transitive comparison has a unique result, so the stable
`List.insertionSort` is extensionally the same sort. -/
def process_formats (raws : List RawFormat) : List DisplayFormat :=
  let cands := raws.filterMap toCandidate
  let ded := (dedupFold cands).map (fun p => p.2)
  let sorted := List.insertionSort fmtRel ded
  sorted.map addLabel

/-! ### `valid_time_format` (src/main.py:218-228) -/

/-- `(:\d{2}){0,k}$`: up to `k` groups of a colon and exactly two digits. -/
def colonGroups : List Char → Nat → Bool
  | [], _ => true
  | c :: d1 :: d2 :: rest, k + 1 => c = ':' && d1.isDigit && d2.isDigit && colonGroups rest k
  | _, _ => false

/-- `^\d{1,2}(:\d{2}){0,2}$` as a recognizer on the character list. -/
def timePattern (l : List Char) : Bool :=
  match l with
  | c :: rest =>
    c.isDigit &&
      (colonGroups rest 2 ||
        match rest with
        | d :: rest2 => d.isDigit && colonGroups rest2 2
        | [] => false)
  | [] => false

/-- Does the raw string match `^\d+$` or `^\d{1,2}(:\d{2}){0,2}$`
(no whitespace stripping)?  This is the spec's wording of validity. -/
def specTimeMatch (s : String) : Bool :=
  (s.toList ≠ [] && s.toList.all Char.isDigit) || timePattern s.toList

/-- `valid_time_format` (src/main.py:218-228): `None` is rejected, the
input is stripped of surrounding whitespace, then matched against the two
patterns.  (`\d` is modelled as an ASCII digit.) -/
def valid_time_format : Option String → Bool
  | none => false
  | some s => specTimeMatch (pyStrip s)

/-! ### `sanitize_filename` (src/main.py:146-149) -/

/-- The allow-list `[a-zA-Z0-9_\-. ]`. -/
def allowedFilenameChar (c : Char) : Bool :=
  c.isAlpha || c.isDigit || c = '_' || c = '-' || c = '.' || c = ' '

/-- `re.sub(r'[^a-zA-Z0-9_\-\. ]', '_', name)[:200]`. -/
def sanitize_filename (name : String) : String :=
  String.mk ((name.data.map (fun c => if allowedFilenameChar c then c else '_')).take 200)

/-! ### Progress records and the progress hook (src/main.py:88-144)

A `ProgressRecord` carries the fields the spec's data model names
(`status`, `percent`, `speed`, `eta`, `message`, `attempt`); a field absent
from the Python dict is `none`.  The hook additionally writes the derived
display strings `speed_text`/`eta_text`, pure presentation recomputed from
`speed`/`eta`; they are omitted from the record model. -/

inductive Status where
  | not_started
  | starting
  | downloading
  | finished
  | error
deriving Repr, DecidableEq

structure ProgressRecord where
  status : Status
  percent : Option Int := none
  speed : Option Int := none
  eta : Option Int := none
  message : Option String := none
  attempt : Option Nat := none
deriving Repr, DecidableEq

/-- One tick from the external engine's progress callback: the dict `d`
restricted to the keys `progress_hook` reads.  `downloaded_bytes` carries
the Python-side default 0 for a missing key. -/
inductive HookEvent where
  | downloading (total_bytes total_bytes_estimate : Option Int)
      (downloaded_bytes : Int) (speed : Option Int) (eta : Option Int)
  | finished
  | errored (errMsg : Option String)
deriving Repr, DecidableEq

/-- The "downloading" branch of `progress_hook` (src/main.py:117-140):
`total = total_bytes or total_bytes_estimate`, `speed = speed or 0`,
`percent = int(downloaded / total * 100) if total else 0` (modelled as
truncation of the exact rational), ETA recomputed from total/speed when
both are truthy, else taken from the engine. -/
def hookDownloading (tb tbe : Option Int) (downloaded : Int)
    (speed etaIn : Option Int) : ProgressRecord :=
  let total := pyOrI tb tbe
  let sp := speed.getD 0
  let percent : Int :=
    match total with
    | some t => if t ≠ 0 then (downloaded * 100).tdiv t else 0
    | none => 0
  let eta : Option Int :=
    match total with
    | some t => if t ≠ 0 && sp ≠ 0 then some ((max 0 (t - downloaded)).tdiv sp) else etaIn
    | none => etaIn
  { status := .downloading, percent := some percent, speed := some sp, eta := eta }

/-- `progress_hook` (src/main.py:117-144) as the record written per tick. -/
def progress_hook : HookEvent → ProgressRecord
  | .downloading tb tbe dl sp eta => hookDownloading tb tbe dl sp eta
  | .finished => { status := .finished, percent := some 100, speed := some 0, eta := some 0 }
  | .errored m => { status := .error, message := some (m.getD "Unknown error") }

/-! ### Download orchestrator (src/main.py:245-307) -/

/-- The behavior of one `ydl.download` attempt (including the trimming step
inside the same `try`): the hook events the engine emits, then either
success or an exception with its message.  The external engine is opaque,
so each attempt's behavior is an oracle parameter. -/
structure AttemptBehavior where
  events : List HookEvent
  result : Except String Unit
deriving Repr

/-- The error record the orchestrator writes after a failed attempt
(src/main.py:296). -/
def orchestratorError (msg : String) (attempt : Nat) : ProgressRecord :=
  { status := .error, message := some msg, attempt := some attempt }

/-- The reset record written before a retry, and also the record
`start_download` writes before spawning the job (src/main.py:303,494). -/
def startingRecord : ProgressRecord := { status := .starting, percent := some 0 }

/-- The terminal record written when audio extraction is requested but
ffmpeg is unavailable (src/main.py:268). -/
def ffmpegMissingError : ProgressRecord :=
  { status := .error, message := some "ffmpeg not found - cannot extract audio (mp3)." }

/-- The job's progress entry after a list of writes, starting from `cur`. -/
def lastOr (writes : List ProgressRecord) (cur : Option ProgressRecord) :
    Option ProgressRecord :=
  match writes.getLast? with
  | some r => some r
  | none => cur

/-- Outcome of the retry loop (src/main.py:278-303): the job's progress
entry, the ordered writes performed, how many attempts were started, the
backoff sleeps taken, and whether the loop exited via the `return` inside
the `except` (third failure) rather than via `break`. -/
structure LoopOut where
  cur : Option ProgressRecord
  writes : List ProgressRecord
  attempts : Nat
  sleeps : List Nat
  returnedEarly : Bool
deriving Repr

/-- The retry loop `for attempt in range(1, max_attempts + 1)`
(src/main.py:278-303).  `fuel` is the number of loop iterations remaining
(`max_attempts - attempt + 1`); the loop always exits via `break` (success)
or `return` (failure on the last attempt), so the fuel-exhausted case is
unreachable from `download_video`. -/
def runAttempts (behaviors : Nat → AttemptBehavior) (maxAttempts : Nat) :
    Nat → Nat → Option ProgressRecord → LoopOut
  | 0, _, cur => ⟨cur, [], 0, [], false⟩
  | fuel + 1, attempt, cur =>
    let b := behaviors attempt
    let hookWrites := b.events.map progress_hook
    let cur1 := lastOr hookWrites cur
    match b.result with
    | .ok _ => ⟨cur1, hookWrites, 1, [], false⟩
    | .error msg =>
      let errRec := orchestratorError msg attempt
      if attempt = maxAttempts then
        ⟨some errRec, hookWrites ++ [errRec], 1, [], true⟩
      else
        let rest := runAttempts behaviors maxAttempts fuel (attempt + 1) (some startingRecord)
        ⟨rest.cur, hookWrites ++ errRec :: startingRecord :: rest.writes,
          rest.attempts + 1, 3 * attempt :: rest.sleeps, rest.returnedEarly⟩

/-- Result of one `download_video` run: final progress entry, ordered
writes, number of download attempts started, and backoff sleeps (seconds). -/
structure DVResult where
  final : Option ProgressRecord
  writes : List ProgressRecord
  attempts : Nat
  sleeps : List Nat
deriving Repr

/-- `download_video` (src/main.py:245-307), abstracted over the engine's
per-attempt behavior and the job's progress entry on entry (`init`).  If
audio extraction is requested while ffmpeg is unavailable, a terminal error
record is written and no attempt is made (src/main.py:266-269).  Otherwise
the retry loop runs with `max_attempts = 3`; afterwards, if the loop was
exited via `break` and the current record's status is `finished`, its
`percent` field is set to 100 in place (src/main.py:305-307; on the
`return` path the status is `error`, so the fix-up would not apply there
anyway). -/
def download_video (ffmpegAvailable extract_audio : Bool)
    (behaviors : Nat → AttemptBehavior) (init : Option ProgressRecord) : DVResult :=
  if extract_audio && !ffmpegAvailable then
    ⟨some ffmpegMissingError, [ffmpegMissingError], 0, []⟩
  else
    let lo := runAttempts behaviors 3 3 1 init
    let final :=
      if lo.returnedEarly then lo.cur
      else
        match lo.cur with
        | some r => if r.status = .finished then some { r with percent := some 100 } else some r
        | none => none
    ⟨final, lo.writes, lo.attempts, lo.sleeps⟩

/-! ### The `/start_download` handler (src/main.py:459-497) -/

/-- A `video_store` entry, as written by the index route (src/main.py:425). -/
structure StoreEntry where
  formats : List DisplayFormat := []
  title : Option String := none
  thumbnail : Option String := none
  duration : Option Int := none
  url : Option String := none
deriving Repr

/-- The form fields `/start_download` reads (`request.form.get`). -/
structure StartForm where
  format_id : Option String := none
  extract_audio : Option String := none
  start_time : Option String := none
  end_time : Option String := none
deriving Repr, DecidableEq

/-- The three responses the handler can produce. -/
inductive Response where
  | redirectSelectFormat (flashMsg : String)
  | redirectDownloadFile (filename : String)
  | redirectProgressPage (video_id filename : String)
deriving Repr, DecidableEq

/-- The arguments passed to the spawned background `download_video` task. -/
structure DownloadJob where
  url : String
  format_id : Option String
  video_id : String
  title : String
  height : Option Int
  extract_audio : Bool
  start_time : Option String
  end_time : Option String
deriving Repr, DecidableEq

/-- Observable effects of one `/start_download` request: the response, the
writes to the progress store, and the background tasks spawned. -/
structure HandlerResult where
  response : Response
  progressWrites : List (String × ProgressRecord)
  spawned : List DownloadJob
deriving Repr, DecidableEq

/-- `f"{height}p" if height else format_id` (src/main.py:486), including
Python's rendering of a `None` format id inside the f-string. -/
def resolutionText (height : Option Int) (format_id : Option String) : String :=
  match height with
  | some h => if h ≠ 0 then toString h ++ "p" else pyShow format_id
  | none => pyShow format_id

/-- The output filename the handler computes (src/main.py:479-488): the
height of the selected format (looked up by format id in the stored
formats), then `f"{safe_title}_{resolution}.{ext}"`. -/
def computed_filename (form : StartForm) (video_id title : String)
    (store : String → Option StoreEntry) : String :=
  let extract_audio := form.extract_audio = some "yes"
  let formats := match store video_id with | some e => e.formats | none => []
  let selected := formats.find? (fun f => f.format_id = form.format_id)
  let height := match selected with | some f => f.height | none => none
  let ext := if extract_audio then "mp3" else "mp4"
  sanitize_filename title ++ "_" ++ resolutionText height form.format_id ++ "." ++ ext

/-- `start_download` (src/main.py:459-497) for a request whose session
holds `url`, `video_id` and `title`.  Trim markers are validated first;
then, if the computed output file already exists, the handler redirects to
it without writing progress or spawning a task; otherwise it writes the
`starting` record, spawns the background download, and redirects to the
progress page. -/
def start_download (form : StartForm) (url video_id title : String)
    (store : String → Option StoreEntry) (fileExists : String → Bool) : HandlerResult :=
  let extract_audio := form.extract_audio = some "yes"
  if truthyS form.start_time && !(valid_time_format form.start_time) then
    ⟨.redirectSelectFormat "Invalid start time format. Use HH:MM:SS", [], []⟩
  else if truthyS form.end_time && !(valid_time_format form.end_time) then
    ⟨.redirectSelectFormat "Invalid end time format. Use HH:MM:SS", [], []⟩
  else
    let formats := match store video_id with | some e => e.formats | none => []
    let selected := formats.find? (fun f => f.format_id = form.format_id)
    let height := match selected with | some f => f.height | none => none
    let filename := computed_filename form video_id title store
    if fileExists filename then
      ⟨.redirectDownloadFile filename, [], []⟩
    else
      ⟨.redirectProgressPage video_id filename,
        [(video_id, startingRecord)],
        [⟨url, form.format_id, video_id, title, height, extract_audio,
          form.start_time, form.end_time⟩]⟩

/-! ### Spec-side definitions (written from the specification's words, for
comparison with the code-side definitions above) -/

/-- One decimal place of `num/den` (`den > 0`), rounding half to even. -/
def oneDecimal (num den : Int) : String :=
  let t := roundHalfEven (num * 10) den
  toString (t.fdiv 10) ++ "." ++ toString (t.fmod 10)

/-- The size rendering the specification describes: binary-prefixed units
(B/KB/MB/GB/TB) with one decimal place in the unit for which the value is
at least 1, or `"Size unknown"` when the size is 0. -/
def specSizeText (n : Int) : String :=
  if n = 0 then "Size unknown"
  else if n < 1024 then oneDecimal n 1 ++ " B"
  else if n < 1024 ^ 2 then oneDecimal n 1024 ++ " KB"
  else if n < 1024 ^ 3 then oneDecimal n (1024 ^ 2) ++ " MB"
  else if n < 1024 ^ 4 then oneDecimal n (1024 ^ 3) ++ " GB"
  else oneDecimal n (1024 ^ 4) ++ " TB"

/-- The note part of the label as the amended claim words it. -/
def amendedNote (f : DisplayFormat) : String :=
  if f.format_note ≠ "" then f.format_note
  else
    match f.height with
    | some h => if h = 0 then "audio" else toString h ++ "p"
    | none => "audio"

/-- The label as the amended claim words it: bullet-joined note, extension,
optional `~{bitrate} kbps` part (present only for nonzero bitrate), and the
size rendered as megabytes with two decimal places (`"Size unknown"` for a
zero size); empty parts omitted. -/
def amendedLabel (f : DisplayFormat) : String :=
  String.intercalate " • "
    (([amendedNote f, f.ext]
      ++ (if f.tbr = 0 then [] else ["~" ++ toString f.tbr ++ " kbps"])
      ++ [if f.filesize = 0 then "Size unknown" else mbText f.filesize]).filter
      (fun p => p ≠ ""))

lemma noteText_eq_amendedNote (f : DisplayFormat) : noteText f = amendedNote f := by
  unfold noteText amendedNote
  rcases f.height with _ | h <;> by_cases h1 : f.format_note = "" <;>
    simp [h1] <;> split_ifs <;> simp_all

lemma addLabel_label (f : DisplayFormat) : (addLabel f).label = amendedLabel f := by
  show bulletJoin [noteText f, f.ext, brText f, sizeText f] = amendedLabel f
  unfold bulletJoin amendedLabel
  rw [noteText_eq_amendedNote]
  by_cases ht : f.tbr = 0 <;> by_cases hs : f.filesize = 0 <;>
    simp [brText, sizeText, ht, hs, List.filter_append, List.filter_cons]

lemma amendedLabel_addLabel (f : DisplayFormat) :
    amendedLabel (addLabel f) = amendedLabel f := rfl

/-! ### Claims about the format normalizer's labels (C6) -/

/-- Concrete raw input used to refute the original C6 size wording. -/
def c6raw : RawFormat :=
  { format_id := some "x", ext := some "mp4", height := some 1080,
    tbr := some 100, filesize := some 1048576 }

/-- C6 (counterexample): the claim says the size text uses binary-prefixed
units with ONE decimal place in the unit for which the value is ≥ 1; on a
1 MiB format the code renders `"1.00 MB"` (always megabytes, two decimal
places), not the `"1.0 MB"` the claim's size rendering yields. -/
theorem c6_counterexample :
    (process_formats [c6raw]).map (fun f => f.label)
        = ["1080p • mp4 • ~100 kbps • 1.00 MB"] ∧
      bulletJoin ["1080p", "mp4", "~100 kbps", specSizeText 1048576]
        = "1080p • mp4 • ~100 kbps • 1.0 MB" ∧
      ("1080p • mp4 • ~100 kbps • 1.00 MB" : String)
        ≠ "1080p • mp4 • ~100 kbps • 1.0 MB" := by
  refine ⟨rfl, rfl, ?_⟩
  decide

/-- C6 (amended): every output entry's label is the bullet-joined string
`"{note-or-resolution-or-audio} • {ext} [• ~{bitrate} kbps] • {size-text}"`
with empty parts omitted, where the note is the explicit format note if
non-empty, else `"{height}p"` for a truthy height and `"audio"` otherwise,
the bitrate part is present only for a nonzero bitrate, and size-text is
the size in megabytes with two decimal places, or `"Size unknown"` when the
size is 0. -/
theorem c6_amended (raws : List RawFormat) (g : DisplayFormat)
    (hg : g ∈ process_formats raws) : g.label = amendedLabel g := by
  unfold process_formats at hg
  simp only [List.mem_map] at hg
  obtain ⟨f, _, rfl⟩ := hg
  rw [amendedLabel_addLabel]
  exact addLabel_label f

/-- C6 witness: the amended label equation at a concrete input. -/
theorem c6_witness :
    ({ format_id := some "x", height := some 1080, ext := "mp4", tbr := 100,
       filesize := 1048576, format_note := "", url := none,
       label := "1080p • mp4 • ~100 kbps • 1.00 MB" } : DisplayFormat).label
      = amendedLabel
          { format_id := some "x", height := some 1080, ext := "mp4", tbr := 100,
            filesize := 1048576, format_note := "", url := none,
            label := "1080p • mp4 • ~100 kbps • 1.00 MB" } :=
  c6_amended [c6raw]
    { format_id := some "x", height := some 1080, ext := "mp4", tbr := 100,
      filesize := 1048576, format_note := "", url := none,
      label := "1080p • mp4 • ~100 kbps • 1.00 MB" }
    (by
      have h : process_formats [c6raw]
          = [{ format_id := some "x", height := some 1080, ext := "mp4", tbr := 100,
               filesize := 1048576, format_note := "", url := none,
               label := "1080p • mp4 • ~100 kbps • 1.00 MB" }] := rfl
      rw [h]
      exact List.mem_singleton.mpr rfl)

/-! ### C9: filename sanitization -/

/-- C9: `sanitize_filename` truncates to at most 200 characters and maps
each of the first 200 characters in place: allowed characters (letters,
digits, underscore, hyphen, dot, space) are kept, every other character
becomes a single `'_'`. -/
theorem c9_sanitize (name : String) :
    (sanitize_filename name).length ≤ 200 ∧
      (sanitize_filename name).data
        = (name.data.take 200).map (fun c => if allowedFilenameChar c then c else '_') := by
  constructor
  · show ((name.data.map _).take 200).length ≤ 200
    simp [List.length_take]
  · show (name.data.map _).take 200 = _
    rw [List.map_take]

/-! ### C7: audio extraction with ffmpeg unavailable -/

/-- C7: when audio extraction is requested while ffmpeg is unavailable,
`download_video` immediately writes a single terminal error record, starts
no download attempt, sleeps never, and that error record is the final
state. -/
theorem c7_ffmpeg_unavailable (behaviors : Nat → AttemptBehavior)
    (init : Option ProgressRecord) :
    (download_video false true behaviors init).attempts = 0 ∧
      (download_video false true behaviors init).writes = [ffmpegMissingError] ∧
      (download_video false true behaviors init).final = some ffmpegMissingError ∧
      (download_video false true behaviors init).sleeps = [] ∧
      ffmpegMissingError.status = .error ∧
      ffmpegMissingError.message = some "ffmpeg not found - cannot extract audio (mp3)." :=
  ⟨rfl, rfl, rfl, rfl, rfl, rfl⟩

/-! ### C4: percent bounds on progress writes -/

/-- C4 (counterexample): on a downloading tick whose estimated total (100)
is smaller than the downloaded byte count (150), the hook writes
`percent = 150`, outside 0–100 — the code does not clamp. -/
theorem c4_counterexample :
    (progress_hook (.downloading none (some 100) 150 none none)).percent = some 150 ∧
      ¬((150 : Int) ≤ 100) := by
  refine ⟨rfl, ?_⟩
  decide

/-- C4 (amended): percent fields are as follows.  On a downloading tick
with a truthy (possibly estimated) total `t > 0` and `downloaded ≥ 0`,
`percent = ⌊downloaded·100 / t⌋ ≥ 0`, and it is ≤ 100 whenever
`downloaded ≤ t` — but it exceeds 100 when `downloaded` exceeds an
estimated total (see the counterexample).  With no truthy total the
percent is 0.  The engine-finished write has percent 100, the
starting/reset write percent 0, and the error writes carry no percent. -/
theorem c4_amended :
    (∀ (tb tbe : Option Int) (dl : Int) (sp eta : Option Int) (t : Int),
        pyOrI tb tbe = some t → 0 < t → 0 ≤ dl →
          (progress_hook (.downloading tb tbe dl sp eta)).percent
              = some ((dl * 100).tdiv t) ∧
            0 ≤ (dl * 100).tdiv t ∧ (dl ≤ t → (dl * 100).tdiv t ≤ 100)) ∧
      (∀ (tb tbe : Option Int) (dl : Int) (sp eta : Option Int),
        (pyOrI tb tbe = none ∨ pyOrI tb tbe = some 0) →
          (progress_hook (.downloading tb tbe dl sp eta)).percent = some 0) ∧
      (progress_hook HookEvent.finished).percent = some 100 ∧
      (∀ m, (progress_hook (.errored m)).percent = none) ∧
      startingRecord.percent = some 0 ∧
      (∀ m n, (orchestratorError m n).percent = none) ∧
      ffmpegMissingError.percent = none := by
  refine ⟨?_, ?_, rfl, fun m => rfl, rfl, fun m n => rfl, rfl⟩
  · intro tb tbe dl sp eta t ht htpos hdl
    have ht0 : t ≠ 0 := by omega
    refine ⟨?_, ?_, ?_⟩
    · simp [progress_hook, hookDownloading, ht, ht0]
    · exact Int.tdiv_nonneg (by positivity) (le_of_lt htpos)
    · intro hle
      have h1 : (dl * 100).tdiv t = dl * 100 / t :=
        Int.tdiv_eq_ediv (by positivity) (le_of_lt htpos)
      rw [h1]
      calc dl * 100 / t ≤ t * 100 / t := by
            apply Int.ediv_le_ediv htpos
            nlinarith
        _ = 100 := by
            rw [mul_comm]
            exact Int.mul_ediv_cancel _ (by omega)
  · intro tb tbe dl sp eta h
    rcases h with h | h <;> simp [progress_hook, hookDownloading, h]

/-- C4 witness: the amended downloading-tick formula at a concrete input
(total 200 bytes, 50 downloaded, giving 25%). -/
theorem c4_witness :
    (progress_hook (.downloading (some 200) none 50 none none)).percent = some 25 ∧
      (0 : Int) ≤ 25 ∧ ((50 : Int) ≤ 200 → (25 : Int) ≤ 100) :=
  c4_amended.1 (some 200) none 50 none none 200 rfl (by decide) (by decide)

/-! ### C10: `/start_download` when the output file already exists -/

/-- Concrete form with an invalid start-time marker for the C10
counterexample. -/
def c10form : StartForm :=
  { format_id := some "22", extract_audio := none, start_time := some "abc",
    end_time := none }

/-- C10 (counterexample): the existence predicate holds for every filename
(in particular for the computed output file), yet because the supplied
start-time marker fails validation the handler redirects back to format
selection, not to serving the existing file. -/
theorem c10_counterexample :
    (start_download c10form "u" "id1" "vid" (fun _ => none) (fun _ => true)).response
        = .redirectSelectFormat "Invalid start time format. Use HH:MM:SS" ∧
      (∀ fn : String, (fun (_ : String) => true) fn = true) ∧
      Response.redirectSelectFormat "Invalid start time format. Use HH:MM:SS"
        ≠ .redirectDownloadFile
            (computed_filename c10form "id1" "vid" (fun _ => none)) := by
  refine ⟨rfl, fun fn => rfl, ?_⟩
  intro h
  cases h

/-- C10 (amended): for every POST whose supplied trim markers pass
validation and whose computed output file already exists, the handler
redirects straight to serving that file, writes nothing to the progress
store, and spawns no background task — even when trim markers or a
different source URL were supplied.  (When a supplied marker fails
validation the handler instead redirects back to format selection, see the
counterexample.) -/
theorem c10_amended (form : StartForm) (url video_id title : String)
    (store : String → Option StoreEntry) (fileExists : String → Bool)
    (hst : ¬(truthyS form.start_time = true ∧ valid_time_format form.start_time = false))
    (het : ¬(truthyS form.end_time = true ∧ valid_time_format form.end_time = false))
    (hex : fileExists (computed_filename form video_id title store) = true) :
    start_download form url video_id title store fileExists
      = ⟨.redirectDownloadFile (computed_filename form video_id title store), [], []⟩ := by
  unfold start_download
  have h1 : (truthyS form.start_time && !valid_time_format form.start_time) = false := by
    rcases Bool.eq_false_or_eq_true (truthyS form.start_time) with h | h <;>
      rcases Bool.eq_false_or_eq_true (valid_time_format form.start_time) with h' | h' <;>
      simp_all
  have h2 : (truthyS form.end_time && !valid_time_format form.end_time) = false := by
    rcases Bool.eq_false_or_eq_true (truthyS form.end_time) with h | h <;>
      rcases Bool.eq_false_or_eq_true (valid_time_format form.end_time) with h' | h' <;>
      simp_all
  simp only [h1, h2, hex, Bool.false_eq_true, if_false, if_true]

/-! ### C8: time-format validation -/

/-- The spec's first pattern, declaratively: one or more digits. -/
def SpecPlainSeconds (l : List Char) : Prop :=
  l ≠ [] ∧ ∀ c ∈ l, c.isDigit = true

/-- The spec's second pattern, declaratively: one or two digits followed by
zero, one, or two `:NN` groups of exactly two digits. -/
def SpecClock (l : List Char) : Prop :=
  (∃ a, l = [a] ∧ a.isDigit = true) ∨
    (∃ a b, l = [a, b] ∧ a.isDigit = true ∧ b.isDigit = true) ∨
    (∃ a b c, l = [a, ':', b, c] ∧ a.isDigit = true ∧ b.isDigit = true ∧ c.isDigit = true) ∨
    (∃ a b c d, l = [a, b, ':', c, d] ∧ a.isDigit = true ∧ b.isDigit = true ∧
      c.isDigit = true ∧ d.isDigit = true) ∨
    (∃ a b c d e, l = [a, ':', b, c, ':', d, e] ∧ a.isDigit = true ∧ b.isDigit = true ∧
      c.isDigit = true ∧ d.isDigit = true ∧ e.isDigit = true) ∨
    (∃ a b c d e g, l = [a, b, ':', c, d, ':', e, g] ∧ a.isDigit = true ∧ b.isDigit = true ∧
      c.isDigit = true ∧ d.isDigit = true ∧ e.isDigit = true ∧ g.isDigit = true)

lemma colonGroups_zero (l : List Char) : colonGroups l 0 = true ↔ l = [] := by
  rcases l with _ | ⟨c, _ | ⟨d, _ | ⟨e, rest⟩⟩⟩ <;> simp [colonGroups]

lemma colonGroups_one (l : List Char) :
    colonGroups l 1 = true ↔
      l = [] ∨ ∃ a b, l = [':', a, b] ∧ a.isDigit = true ∧ b.isDigit = true := by
  rcases l with _ | ⟨c, _ | ⟨d, _ | ⟨e, rest⟩⟩⟩ <;>
    simp [colonGroups, colonGroups_zero, List.cons.injEq] <;> aesop

lemma colonGroups_two (l : List Char) :
    colonGroups l 2 = true ↔
      l = [] ∨ (∃ a b, l = [':', a, b] ∧ a.isDigit = true ∧ b.isDigit = true) ∨
        (∃ a b c d, l = [':', a, b, ':', c, d] ∧ a.isDigit = true ∧ b.isDigit = true ∧
          c.isDigit = true ∧ d.isDigit = true) := by
  rcases l with _ | ⟨c, _ | ⟨d, _ | ⟨e, rest⟩⟩⟩ <;>
    simp [colonGroups, colonGroups_one, List.cons.injEq] <;> aesop

lemma timePattern_iff (l : List Char) : timePattern l = true ↔ SpecClock l := by
  constructor
  · intro h
    rcases l with _ | ⟨c, _ | ⟨d, rest2⟩⟩
    · simp [timePattern] at h
    · simp only [timePattern, colonGroups, Bool.and_eq_true, Bool.or_eq_true] at h
      exact Or.inl ⟨c, rfl, h.1⟩
    · simp only [timePattern, Bool.and_eq_true, Bool.or_eq_true] at h
      obtain ⟨hc, h2⟩ := h
      rcases h2 with h2 | h2
      · rw [colonGroups_two] at h2
        rcases h2 with h2 | ⟨a, b, heq, ha, hb⟩ | ⟨a, b, e, g, heq, ha, hb, he, hg⟩
        · exact absurd h2 (by simp)
        · injection heq with h5 h6
          subst h5; subst h6
          exact Or.inr (Or.inr (Or.inl ⟨c, a, b, rfl, hc, ha, hb⟩))
        · injection heq with h5 h6
          subst h5; subst h6
          exact Or.inr (Or.inr (Or.inr (Or.inr (Or.inl
            ⟨c, a, b, e, g, rfl, hc, ha, hb, he, hg⟩))))
      · obtain ⟨hd, h3⟩ := h2
        rw [colonGroups_two] at h3
        rcases h3 with h3 | ⟨a, b, heq, ha, hb⟩ | ⟨a, b, e, g, heq, ha, hb, he, hg⟩
        · subst h3
          exact Or.inr (Or.inl ⟨c, d, rfl, hc, hd⟩)
        · subst heq
          exact Or.inr (Or.inr (Or.inr (Or.inl ⟨c, d, a, b, rfl, hc, hd, ha, hb⟩)))
        · subst heq
          exact Or.inr (Or.inr (Or.inr (Or.inr (Or.inr
            ⟨c, d, a, b, e, g, rfl, hc, hd, ha, hb, he, hg⟩))))
  · intro h
    rcases h with ⟨a, rfl, ha⟩ | ⟨a, b, rfl, ha, hb⟩ | ⟨a, b, c, rfl, ha, hb, hc⟩ |
      ⟨a, b, c, d, rfl, ha, hb, hc, hd⟩ | ⟨a, b, c, d, e, rfl, ha, hb, hc, hd, he⟩ |
      ⟨a, b, c, d, e, g, rfl, ha, hb, hc, hd, he, hg⟩ <;>
      simp [timePattern, colonGroups, *]

lemma specTimeMatch_iff (s : String) :
    specTimeMatch s = true ↔ SpecPlainSeconds s.toList ∨ SpecClock s.toList := by
  unfold specTimeMatch SpecPlainSeconds
  rw [Bool.or_eq_true, Bool.and_eq_true, timePattern_iff, List.all_eq_true]
  simp

/-- C8 (counterexample): the claim says `valid_time_format` returns true
iff the string matches one of the two patterns; on `" 30"` (a leading
space) the function returns true, yet the raw string matches neither
pattern — the code strips surrounding whitespace first. -/
theorem c8_counterexample :
    valid_time_format (some " 30") = true ∧
      ¬(SpecPlainSeconds " 30".toList ∨ SpecClock " 30".toList) := by
  refine ⟨rfl, ?_⟩
  rw [← specTimeMatch_iff]
  have h : specTimeMatch " 30" = false := rfl
  simp [h]

/-- C8 (amended): `valid_time_format` returns true iff the input string,
after stripping leading and trailing whitespace, matches "one or more
digits" or "1–2 digits followed by zero, one, or two `:NN` groups of
exactly two digits"; it accepts `"30"`, `"1:23"`, `"00:01:23"` and rejects
`""`, `"abc"`, `"1:2:3:4"`, and `None`. -/
theorem c8_amended :
    (∀ s : String, valid_time_format (some s) = true ↔
        (SpecPlainSeconds (pyStrip s).toList ∨ SpecClock (pyStrip s).toList)) ∧
      valid_time_format none = false ∧
      valid_time_format (some "30") = true ∧
      valid_time_format (some "1:23") = true ∧
      valid_time_format (some "00:01:23") = true ∧
      valid_time_format (some "") = false ∧
      valid_time_format (some "abc") = false ∧
      valid_time_format (some "1:2:3:4") = false := by
  refine ⟨fun s => ?_, rfl, rfl, rfl, rfl, rfl, rfl, rfl⟩
  exact specTimeMatch_iff (pyStrip s)

/-- C8 witness: the amended characterization at the concrete input `"30"`. -/
theorem c8_witness :
    valid_time_format (some "30") = true ↔
      (SpecPlainSeconds (pyStrip "30").toList ∨ SpecClock (pyStrip "30").toList) :=
  c8_amended.1 "30"

/-- C10 witness: the amended behavior at a concrete input (valid absent
markers, every file reported as existing). -/
theorem c10_witness :
    start_download { format_id := some "22" } "u" "id1" "vid" (fun _ => none)
        (fun _ => true)
      = ⟨.redirectDownloadFile
           (computed_filename { format_id := some "22" } "id1" "vid" (fun _ => none)),
         [], []⟩ :=
  c10_amended { format_id := some "22" } "u" "id1" "vid" (fun _ => none)
    (fun _ => true) (by decide) (by decide) rfl

/-! ### C5: output ordering -/

lemma fmtRel_imp (a b : DisplayFormat) (h : fmtRel a b) :
    (a.height = none → b.height = none) ∧
      (∀ ha hb, a.height = some ha → b.height = some hb →
        hb < ha ∨ (hb = ha ∧ (b.tbr < a.tbr ∨ (b.tbr = a.tbr ∧ b.filesize ≤ a.filesize)))) := by
  unfold fmtRel fmtLE lex4LE sortKey at h
  rw [decide_eq_true_eq] at h
  constructor
  · intro han
    rcases hbh : b.height with _ | hb
    · rfl
    · exfalso
      rw [han, hbh] at h
      simp at h
  · intro ha hb hah hbh
    rw [hah, hbh] at h
    simp at h
    omega

/-- C5: the format normalizer's output is sorted as the spec states — every
non-null-height (video) entry precedes every null-height (audio-only)
entry, and for any two non-null-height entries in order, the later one has
a smaller height, or an equal height and a smaller bitrate, or equal height
and bitrate and a no-larger filesize. -/
theorem c5_ordering (raws : List RawFormat) :
    (process_formats raws).Pairwise (fun a b =>
      (a.height = none → b.height = none) ∧
        (∀ ha hb, a.height = some ha → b.height = some hb →
          hb < ha ∨ (hb = ha ∧ (b.tbr < a.tbr ∨ (b.tbr = a.tbr ∧ b.filesize ≤ a.filesize))))) := by
  unfold process_formats
  rw [List.pairwise_map]
  have hs := List.sorted_insertionSort fmtRel
    ((dedupFold (raws.filterMap toCandidate)).map (fun p => p.2))
  exact hs.imp (fun hab => fmtRel_imp _ _ hab)

/-! ### C1: dedup by (height, ext) and the in-group selection rule -/

/-- One step of Python's in-group champion update: the first candidate
becomes the champion, later ones replace it per `dedupPick`. -/
def pickStep (o : Option DisplayFormat) (f : DisplayFormat) : Option DisplayFormat :=
  some (match o with | none => f | some p => dedupPick p f)

/-- The champion left after scanning a group of candidates in input order. -/
def pyFoldPick (group : List DisplayFormat) : Option DisplayFormat :=
  group.foldl pickStep none

/-- Lookup in the dedup association list. -/
def assocLookup : List ((Int × String) × DisplayFormat) → (Int × String) → Option DisplayFormat
  | [], _ => none
  | (k, v) :: rest, key => if k = key then some v else assocLookup rest key

/-- A display format with its label cleared, for comparisons that ignore
the label-rendering pass. -/
def stripLabel (f : DisplayFormat) : DisplayFormat := { f with label := "" }

lemma assocLookup_dedupInsert (acc : List ((Int × String) × DisplayFormat))
    (f : DisplayFormat) (k : Int × String) :
    assocLookup (dedupInsert acc f) k =
      if dedupKey f = k then pickStep (assocLookup acc k) f else assocLookup acc k := by
  induction acc with
  | nil =>
    by_cases h : dedupKey f = k <;> simp [dedupInsert, assocLookup, pickStep, h]
  | cons hd rest ih =>
    obtain ⟨k1, g⟩ := hd
    by_cases h1 : k1 = dedupKey f
    · by_cases h2 : k1 = k
      · have h3 : dedupKey f = k := h1.symm.trans h2
        simp [dedupInsert, if_pos h1, assocLookup, h2, h3, pickStep]
      · have h3 : ¬(dedupKey f = k) := fun h => h2 (h1.trans h)
        simp [dedupInsert, if_pos h1, assocLookup, h2, h3]
    · by_cases h2 : k1 = k
      · have h3 : ¬(dedupKey f = k) := fun h => h1 (h2.trans h.symm)
        have h4 : ¬(k = dedupKey f) := fun h => h3 h.symm
        simp [dedupInsert, if_neg h1, assocLookup, h2, h3, h4]
      · simp [dedupInsert, if_neg h1, assocLookup, h2, ih]

lemma assocLookup_foldl (cands : List DisplayFormat) :
    ∀ (acc : List ((Int × String) × DisplayFormat)) (k : Int × String),
      assocLookup (cands.foldl dedupInsert acc) k =
        (cands.filter (fun c => dedupKey c = k)).foldl pickStep (assocLookup acc k) := by
  induction cands with
  | nil => intro acc k; rfl
  | cons c cands ih =>
    intro acc k
    rw [List.foldl_cons, ih, assocLookup_dedupInsert]
    by_cases h : dedupKey c = k <;> simp [List.filter_cons, h]

/-- The dedup dict's value at key `k` is exactly the Python fold of the
candidates whose key is `k`, in input order. -/
lemma assocLookup_dedupFold (cands : List DisplayFormat) (k : Int × String) :
    assocLookup (dedupFold cands) k = pyFoldPick (cands.filter (fun c => dedupKey c = k)) := by
  unfold dedupFold pyFoldPick
  rw [assocLookup_foldl]
  rfl

lemma dedupPick_cases (g f : DisplayFormat) : dedupPick g f = g ∨ dedupPick g f = f := by
  unfold dedupPick
  split_ifs <;> simp

lemma dedupInsert_key_inv (acc : List ((Int × String) × DisplayFormat)) (f : DisplayFormat)
    (hinv : ∀ p ∈ acc, dedupKey p.2 = p.1) :
    ∀ p ∈ dedupInsert acc f, dedupKey p.2 = p.1 := by
  induction acc with
  | nil =>
    intro p hp
    simp [dedupInsert] at hp
    subst hp
    rfl
  | cons hd rest ih =>
    obtain ⟨k1, g⟩ := hd
    intro p hp
    by_cases h1 : k1 = dedupKey f
    · rw [show dedupInsert ((k1, g) :: rest) f = (k1, dedupPick g f) :: rest from by
        simp [dedupInsert, if_pos h1]] at hp
      rcases List.mem_cons.mp hp with hp | hp
      · subst hp
        have hg : dedupKey g = k1 := hinv (k1, g) (List.mem_cons_self _ _)
        rcases dedupPick_cases g f with hc | hc
        · show dedupKey (dedupPick g f) = k1
          rw [hc, hg]
        · show dedupKey (dedupPick g f) = k1
          rw [hc, ← h1]
      · exact hinv p (List.mem_cons_of_mem _ hp)
    · rw [show dedupInsert ((k1, g) :: rest) f = (k1, g) :: dedupInsert rest f from by
        simp [dedupInsert, if_neg h1]] at hp
      rcases List.mem_cons.mp hp with hp | hp
      · subst hp
        exact hinv (k1, g) (List.mem_cons_self _ _)
      · exact ih (fun q hq => hinv q (List.mem_cons_of_mem _ hq)) p hp

lemma keys_dedupInsert (acc : List ((Int × String) × DisplayFormat)) (f : DisplayFormat)
    (k : Int × String) :
    k ∈ (dedupInsert acc f).map (fun p => p.1) ↔
      k ∈ acc.map (fun p => p.1) ∨ k = dedupKey f := by
  induction acc with
  | nil => simp [dedupInsert]
  | cons hd rest ih =>
    obtain ⟨k1, g⟩ := hd
    by_cases h1 : k1 = dedupKey f
    · simp only [dedupInsert, if_pos h1, List.map_cons, List.mem_cons]
      constructor
      · rintro (h | h)
        · exact Or.inl (Or.inl h)
        · exact Or.inl (Or.inr h)
      · rintro ((h | h) | h)
        · exact Or.inl h
        · exact Or.inr h
        · exact Or.inl (h.trans h1.symm)
    · simp only [dedupInsert, if_neg h1, List.map_cons, List.mem_cons, ih]
      tauto

lemma nodup_keys_dedupInsert (acc : List ((Int × String) × DisplayFormat)) (f : DisplayFormat)
    (h : (acc.map (fun p => p.1)).Nodup) :
    ((dedupInsert acc f).map (fun p => p.1)).Nodup := by
  induction acc with
  | nil => simp [dedupInsert]
  | cons hd rest ih =>
    obtain ⟨k1, g⟩ := hd
    simp only [List.map_cons, List.nodup_cons] at h
    by_cases h1 : k1 = dedupKey f
    · rw [show dedupInsert ((k1, g) :: rest) f = (k1, dedupPick g f) :: rest from by
        simp [dedupInsert, if_pos h1]]
      simp only [List.map_cons, List.nodup_cons]
      exact h
    · simp only [dedupInsert, if_neg h1, List.map_cons, List.nodup_cons]
      refine ⟨?_, ih h.2⟩
      rw [keys_dedupInsert]
      rintro (hk | hk)
      · exact h.1 hk
      · exact h1 hk

lemma nodup_keys_dedupFold (cands : List DisplayFormat) :
    ((dedupFold cands).map (fun p => p.1)).Nodup := by
  unfold dedupFold
  suffices h : ∀ acc : List ((Int × String) × DisplayFormat),
      (acc.map (fun p => p.1)).Nodup → ((cands.foldl dedupInsert acc).map (fun p => p.1)).Nodup by
    exact h [] (by simp)
  induction cands with
  | nil => intro acc h; exact h
  | cons c cands ih =>
    intro acc h
    exact ih _ (nodup_keys_dedupInsert acc c h)

lemma key_inv_dedupFold (cands : List DisplayFormat) :
    ∀ p ∈ dedupFold cands, dedupKey p.2 = p.1 := by
  unfold dedupFold
  suffices h : ∀ acc : List ((Int × String) × DisplayFormat),
      (∀ p ∈ acc, dedupKey p.2 = p.1) →
        ∀ p ∈ cands.foldl dedupInsert acc, dedupKey p.2 = p.1 by
    exact h [] (by simp)
  induction cands with
  | nil => intro acc h; exact h
  | cons c cands ih =>
    intro acc h
    exact ih _ (dedupInsert_key_inv acc c h)

lemma assocLookup_of_mem (acc : List ((Int × String) × DisplayFormat))
    (hnd : (acc.map (fun p => p.1)).Nodup) (p : (Int × String) × DisplayFormat)
    (hp : p ∈ acc) : assocLookup acc p.1 = some p.2 := by
  induction acc with
  | nil => cases hp
  | cons hd rest ih =>
    obtain ⟨k1, g⟩ := hd
    simp only [List.map_cons, List.nodup_cons] at hnd
    rcases List.mem_cons.mp hp with hp1 | hp1
    · subst hp1
      simp [assocLookup]
    · have hne : k1 ≠ p.1 := by
        intro he
        exact hnd.1 (he ▸ List.mem_map.mpr ⟨p, hp1, rfl⟩)
      simp [assocLookup, hne]
      exact ih hnd.2 hp1

/-- C1 (amended): the output still has at most one entry per distinct
(height, ext) pair, but the entry kept for each group is the result of
scanning the group's candidates in input order and replacing the current
champion whenever the candidate's filesize is strictly larger, OR ELSE
whenever its bitrate is strictly larger — which is not the lexicographic
(filesize, then bitrate) maximum (see the counterexample). -/
theorem c1_amended (raws : List RawFormat) :
    (process_formats raws).Pairwise (fun a b => ¬(a.height = b.height ∧ a.ext = b.ext)) ∧
      ∀ g ∈ process_formats raws,
        ∃ f, pyFoldPick ((raws.filterMap toCandidate).filter
            (fun c => dedupKey c = dedupKey g)) = some f ∧
          stripLabel g = stripLabel f := by
  have hnd := nodup_keys_dedupFold (raws.filterMap toCandidate)
  have hinv := key_inv_dedupFold (raws.filterMap toCandidate)
  constructor
  · unfold process_formats
    rw [List.pairwise_map]
    have h1 : (dedupFold (raws.filterMap toCandidate)).Pairwise (fun p q => p.1 ≠ q.1) := by
      rw [List.Nodup, List.pairwise_map] at hnd
      exact hnd
    have h2 : ((dedupFold (raws.filterMap toCandidate)).map (fun p => p.2)).Pairwise
        (fun u v => dedupKey u ≠ dedupKey v) := by
      rw [List.pairwise_map]
      refine List.Pairwise.imp_of_mem ?_ h1
      intro p q hp hq hne
      rw [hinv p hp, hinv q hq]
      exact hne
    have h3 := ((List.perm_insertionSort fmtRel
      ((dedupFold (raws.filterMap toCandidate)).map (fun p => p.2))).pairwise_iff
      (fun h he => h he.symm)).mpr h2
    refine h3.imp ?_
    intro a b hne hcon
    have h4 : a.height = b.height := hcon.1
    have h5 : a.ext = b.ext := hcon.2
    exact hne (show (a.height.getD 0, a.ext) = (b.height.getD 0, b.ext) by rw [h4, h5])
  · intro g hg
    unfold process_formats at hg
    rw [List.mem_map] at hg
    obtain ⟨f0, hf0, rfl⟩ := hg
    rw [List.mem_insertionSort] at hf0
    rw [List.mem_map] at hf0
    obtain ⟨p, hp, rfl⟩ := hf0
    refine ⟨p.2, ?_, rfl⟩
    have hk : dedupKey (addLabel p.2) = p.1 := hinv p hp
    rw [hk, ← assocLookup_dedupFold]
    exact assocLookup_of_mem _ hnd p hp

/-- Raw candidate A for the C1 counterexample: filesize 100, bitrate 1. -/
def c1rawA : RawFormat :=
  { format_id := some "a", ext := some "mp4", height := some 720,
    tbr := some 1, filesize := some 100 }

/-- Raw candidate B for the C1 counterexample: filesize 50, bitrate 5. -/
def c1rawB : RawFormat :=
  { format_id := some "b", ext := some "mp4", height := some 720,
    tbr := some 5, filesize := some 50 }

/-- C1 (counterexample): both candidates share the (height, ext) group
(720, mp4); candidate A has the lexicographically largest (filesize,
bitrate) = (100, 1), but the code keeps candidate B (filesize 50, bitrate
5), because the `elif` bitrate comparison fires even though B's filesize is
strictly smaller.  The kept entry therefore does not maximize (filesize,
then bitrate). -/
theorem c1_counterexample :
    (process_formats [c1rawA, c1rawB]).map (fun f => (f.format_id, f.filesize, f.tbr))
        = [(some "b", 50, 5)] ∧
      (toCandidate c1rawA).map (fun f => (f.height, f.ext, f.filesize, f.tbr))
        = some (some 720, "mp4", 100, 1) ∧
      (toCandidate c1rawB).map (fun f => (f.height, f.ext, f.filesize, f.tbr))
        = some (some 720, "mp4", 50, 5) ∧
      (100 : Int) > 50 := by
  refine ⟨rfl, rfl, rfl, ?_⟩
  decide

/-- C1 witness: the amended in-group selection rule at the concrete
counterexample input — the kept entry is the Python fold of the (720, mp4)
group. -/
theorem c1_witness :
    ∃ f, pyFoldPick (([c1rawA, c1rawB].filterMap toCandidate).filter
        (fun c => dedupKey c = dedupKey
          { format_id := some "b", height := some 720, ext := "mp4", tbr := 5,
            filesize := 50, format_note := "", url := none,
            label := "720p • mp4 • ~5 kbps • 0.00 MB" })) = some f ∧
      stripLabel
          { format_id := some "b", height := some 720, ext := "mp4", tbr := 5,
            filesize := 50, format_note := "", url := none,
            label := "720p • mp4 • ~5 kbps • 0.00 MB" } = stripLabel f :=
  (c1_amended [c1rawA, c1rawB]).2
    { format_id := some "b", height := some 720, ext := "mp4", tbr := 5,
      filesize := 50, format_note := "", url := none,
      label := "720p • mp4 • ~5 kbps • 0.00 MB" }
    (by
      have h : process_formats [c1rawA, c1rawB]
          = [{ format_id := some "b", height := some 720, ext := "mp4", tbr := 5,
               filesize := 50, format_note := "", url := none,
               label := "720p • mp4 • ~5 kbps • 0.00 MB" }] := rfl
      rw [h]
      exact List.mem_singleton.mpr rfl)

/-! ### C2 and C3: the retry loop -/

lemma runAttempts_attempts_le (b : Nat → AttemptBehavior) (m : Nat) :
    ∀ (fuel attempt : Nat) (cur : Option ProgressRecord),
      (runAttempts b m fuel attempt cur).attempts ≤ fuel := by
  intro fuel
  induction fuel with
  | zero => intro attempt cur; simp [runAttempts]
  | succ fuel ih =>
    intro attempt cur
    rcases hres : (b attempt).result with msg | u
    · by_cases hm : attempt = m
      · subst hm
        simp [runAttempts, hres] <;> omega
      · have hrest := ih (attempt + 1) (some startingRecord)
        simp [runAttempts, hres, hm] <;> omega
    · simp [runAttempts, hres] <;> omega

/-- The record the hook writes on the engine's finished tick. -/
lemma lastOr_map_finished (ev : List HookEvent)
    (hfin : ev.getLast? = some .finished) (cur : Option ProgressRecord) :
    lastOr (ev.map progress_hook) cur
      = some { status := .finished, percent := some 100, speed := some 0, eta := some 0 } := by
  unfold lastOr
  rw [List.getLast?_map, hfin]
  rfl

/-- C2: the orchestrator starts at most 3 attempts for every job; and on a
job whose three attempts all fail, after each failed attempt `n` it writes
an error record carrying the failure message and `attempt = n`, after
attempts 1 and 2 it sleeps `3·n` seconds and resets the record to
`starting`/0%, and after the failure on attempt 3 it stops, leaving that
error record (`attempt = 3`) as the final state with no further attempt. -/
theorem c2_retry_policy (ffmpegAvailable extract_audio : Bool)
    (behaviors : Nat → AttemptBehavior) (init : Option ProgressRecord) (m1 m2 m3 : String)
    (hgo : extract_audio = false ∨ ffmpegAvailable = true)
    (h1 : (behaviors 1).result = .error m1)
    (h2 : (behaviors 2).result = .error m2)
    (h3 : (behaviors 3).result = .error m3) :
    (∀ (ff ea : Bool) (b : Nat → AttemptBehavior) (i : Option ProgressRecord),
        (download_video ff ea b i).attempts ≤ 3) ∧
      (∀ m n, (orchestratorError m n).status = .error ∧
        (orchestratorError m n).message = some m ∧ (orchestratorError m n).attempt = some n) ∧
      (startingRecord.status = .starting ∧ startingRecord.percent = some 0) ∧
      (∀ (b : Nat → AttemptBehavior) (i : Option ProgressRecord) (m : String) (u : Unit),
        (b 1).result = .error m → (b 2).result = .ok u →
          (download_video true false b i).writes =
              (b 1).events.map progress_hook ++ orchestratorError m 1 :: startingRecord ::
                (b 2).events.map progress_hook ∧
            (download_video true false b i).sleeps = [3] ∧
            (download_video true false b i).attempts = 2) ∧
      (download_video ffmpegAvailable extract_audio behaviors init).attempts = 3 ∧
      (download_video ffmpegAvailable extract_audio behaviors init).writes =
        (behaviors 1).events.map progress_hook ++ orchestratorError m1 1 :: startingRecord ::
          ((behaviors 2).events.map progress_hook ++ orchestratorError m2 2 :: startingRecord ::
            ((behaviors 3).events.map progress_hook ++ [orchestratorError m3 3])) ∧
      (download_video ffmpegAvailable extract_audio behaviors init).sleeps = [3, 6] ∧
      (download_video ffmpegAvailable extract_audio behaviors init).final
        = some (orchestratorError m3 3) := by
  have hcond : (extract_audio && !ffmpegAvailable) = false := by
    rcases hgo with h | h <;> simp [h]
  have hrun : runAttempts behaviors 3 3 1 init =
      ⟨some (orchestratorError m3 3),
       (behaviors 1).events.map progress_hook ++ orchestratorError m1 1 :: startingRecord ::
         ((behaviors 2).events.map progress_hook ++ orchestratorError m2 2 :: startingRecord ::
           ((behaviors 3).events.map progress_hook ++ [orchestratorError m3 3])),
       3, [3, 6], true⟩ := by
    simp [runAttempts, h1, h2, h3]
  refine ⟨?_, fun m n => ⟨rfl, rfl, rfl⟩, ⟨rfl, rfl⟩, ?_, ?_, ?_, ?_, ?_⟩
  · intro ff ea b i
    unfold download_video
    by_cases hc : (ea && !ff) = true
    · simp [hc]
    · rw [Bool.not_eq_true] at hc
      simp [hc]
      exact runAttempts_attempts_le b 3 3 1 i
  · intro b i m u hb1 hb2
    refine ⟨?_, ?_, ?_⟩ <;> simp [download_video, runAttempts, hb1, hb2]
  · simp [download_video, hcond, hrun]
  · simp [download_video, hcond, hrun]
  · simp [download_video, hcond, hrun]
  · simp [download_video, hcond, hrun, orchestratorError]

/-- Concrete all-fail behavior for the C2 witness. -/
def cbAllFail : Nat → AttemptBehavior :=
  fun n => ⟨[], .error (if n = 1 then "a" else if n = 2 then "b" else "c")⟩

/-- C2 witness: the retry policy at a concrete all-fail job (no hook
events, messages "a"/"b"/"c"). -/
theorem c2_witness :
    (download_video false false cbAllFail none).attempts = 3 ∧
      (download_video false false cbAllFail none).writes =
        (cbAllFail 1).events.map progress_hook ++ orchestratorError "a" 1 :: startingRecord ::
          ((cbAllFail 2).events.map progress_hook ++ orchestratorError "b" 2 :: startingRecord ::
            ((cbAllFail 3).events.map progress_hook ++ [orchestratorError "c" 3])) ∧
      (download_video false false cbAllFail none).sleeps = [3, 6] ∧
      (download_video false false cbAllFail none).final = some (orchestratorError "c" 3) :=
  (c2_retry_policy false false cbAllFail none "a" "b" "c" (Or.inl rfl) rfl rfl rfl).2.2.2.2

/-- C3: for every job that is allowed to start (not the missing-ffmpeg
case) and whose download+postprocess succeeds on some attempt `k ≤ 3`
(earlier attempts failing), provided the engine ends the successful
attempt with its finished tick, the final progress record has status
`finished` and percent 100. -/
theorem c3_success_final (ffmpegAvailable extract_audio : Bool)
    (behaviors : Nat → AttemptBehavior) (init : Option ProgressRecord) (k : Nat)
    (hgo : extract_audio = false ∨ ffmpegAvailable = true)
    (hk1 : 1 ≤ k) (hk3 : k ≤ 3)
    (hfail : ∀ j, 1 ≤ j → j < k → ∃ m, (behaviors j).result = .error m)
    (hok : (behaviors k).result = .ok ())
    (hfin : (behaviors k).events.getLast? = some HookEvent.finished) :
    ∃ r, (download_video ffmpegAvailable extract_audio behaviors init).final = some r ∧
      r.status = .finished ∧ r.percent = some 100 := by
  have hcond : (extract_audio && !ffmpegAvailable) = false := by
    rcases hgo with h | h <;> simp [h]
  refine ⟨{ status := .finished, percent := some 100, speed := some 0, eta := some 0 },
    ?_, rfl, rfl⟩
  interval_cases k
  · simp [download_video, hcond, runAttempts, hok, lastOr_map_finished _ hfin]
  · obtain ⟨ma, hma⟩ := hfail 1 (by norm_num) (by norm_num)
    simp [download_video, hcond, runAttempts, hma, hok, lastOr_map_finished _ hfin]
  · obtain ⟨ma, hma⟩ := hfail 1 (by norm_num) (by norm_num)
    obtain ⟨mb, hmb⟩ := hfail 2 (by norm_num) (by norm_num)
    simp [download_video, hcond, runAttempts, hma, hmb, hok, lastOr_map_finished _ hfin]

/-- Concrete fail-twice-then-succeed behavior for the C3 witness. -/
def cbTwoFailThenOk : Nat → AttemptBehavior :=
  fun n => if n ≤ 2 then ⟨[], .error "boom"⟩ else ⟨[.finished], .ok ()⟩

/-- C3 witness: a job that fails twice then succeeds ends with
`status = finished, percent = 100`. -/
theorem c3_witness :
    ∃ r, (download_video true false cbTwoFailThenOk none).final = some r ∧
      r.status = .finished ∧ r.percent = some 100 :=
  c3_success_final true false cbTwoFailThenOk none 3 (Or.inl rfl) (by norm_num)
    (by norm_num)
    (fun j hj1 hj2 => ⟨"boom", by interval_cases j <;> rfl⟩) rfl rfl

end Multi
